import Mathlib

/-!
Verification of the xenomapper single-stream classification engine
(`xenomapper/xenomapper.py`) against its natural-language specification.

Modelling conventions:
* Python floats carrying alignment scores are modelled as `WithBot ℚ`;
  the bottom element `⊥` plays the role of `float('-inf')` (used by the
  code both for an absent tag and as the default `min_score`).  The
  classifier is additionally analysed over `PyFloat`, which extends this
  ordered domain with the unordered `nan` value of Python floats (every
  comparison against `nan` is false).
* Python exceptions are modelled with the `PyError` type and `Except`:
  `ValueError` (the code's malformed-header / malformed-record error),
  `IndexError` (raised by `x[0]` on an empty string and `[...][0]` on an
  empty list), and `RuntimeError` (the unreachable-state error).
* Python truthiness is modelled where the code relies on it:
  `not XS1` is true exactly when the float `XS1` equals `0.0`
  (`float('-inf')` is truthy), and `if comment:` is true exactly when the
  optional string is present and non-empty.
* Output file objects are modelled as `Option (List String)`: `none` is an
  unbound destination (Python `None`), `some ls` is a bound destination
  whose written lines so far are `ls`; `print(s, file=f)` appends
  `s ++ "\n"`.
-/

/-- Python exception kinds raised by the code under verification. -/
inductive PyError where
  | valueError (msg : String)
  | indexError
  | runtimeError (msg : String)
  deriving DecidableEq

deriving instance DecidableEq for Except

/-- Alignment scores: rationals extended with `⊥` standing for `float('-inf')`. -/
abbrev Score := WithBot ℚ

/-- Python `sep.join(list)` for a non-empty separator (used by the code as
`'\t'.join(line1)` and `'\n'.join(new_header)`). -/
def pyJoin (sep : String) : List String → String
  | [] => ""
  | [x] => x
  | x :: y :: ys => x ++ sep ++ pyJoin sep (y :: ys)

/-- Helper for `splitOnChar`: accumulates the current field (reversed). -/
def splitOnCharAux (c : Char) : List Char → List Char → List String
  | [], acc => [String.mk acc.reverse]
  | x :: xs, acc =>
    if x = c then String.mk acc.reverse :: splitOnCharAux c xs []
    else splitOnCharAux c xs (x :: acc)

/-- Python `s.split(c)` for a single-character separator (used by the code as
`tag_list[0].split(':')`). -/
def splitOnChar (c : Char) (s : String) : List String := splitOnCharAux c s.data []

/-- Python `list[-1]` specialised to the result of a split, which is never
empty, so the default is never used (used by the code as `.split(':')[-1]`). -/
def lastStr : List String → String
  | [] => ""
  | [x] => x
  | _ :: y :: ys => lastStr (y :: ys)

/-- Decides whether `needle` occurs at the head of `hay` (character lists). -/
def isSubAt : List Char → List Char → Bool
  | [], _ => true
  | _ :: _, [] => false
  | a :: as, b :: bs => decide (a = b) && isSubAt as bs

/-- Decides whether `needle` occurs contiguously anywhere inside `hay`. -/
def containsSub (needle : List Char) : List Char → Bool
  | [] => isSubAt needle []
  | b :: bs => isSubAt needle (b :: bs) || containsSub needle bs

/-- Python's substring test `needle in hay` on strings (used by the code as
`tag in x`). -/
def pyIn (needle hay : String) : Bool := containsSub needle.data hay.data

/-- Embedding of `get_tag(sam_line, tag)` (xenomapper.py lines 115-130).
The list comprehension scans only `sam_line[11:]`, keeping the fields that
contain `tag` as a substring; no match returns `-inf`, more than one match
raises `ValueError`, and a unique match is parsed as a float from the text
after the last `':'`.  Python's `float(...)` conversion is abstracted as the
parameter `pf`. -/
def get_tag (pf : String → Score) (sam_line : List String) (tag : String) :
    Except PyError Score :=
  match (sam_line.drop 11).filter (fun x => pyIn tag x) with
  | [] => .ok ⊥
  | [t] => .ok (pf (lastStr (splitOnChar ':' t)))
  | _ => .error (.valueError ("SAM line has multiple values of " ++ tag))

/-- Embedding of `get_mapping_state(AS1, XS1, min_score)` (xenomapper.py lines
150-157).  The Python guard `not XS1` is truthiness on a float: it holds
exactly when `XS1 == 0.0` (`float('-inf')` is truthy), so the condition
`not XS1 or AS1 > XS1` becomes `XS1 = 0 ∨ XS1 < AS1`.  The trailing `else`
raises `RuntimeError`. -/
def get_mapping_state (AS1 XS1 : Score) (min_score : Score) : Except PyError String :=
  if AS1 ≤ min_score then .ok "unassigned"
  else if min_score < AS1 then
    if XS1 = 0 ∨ XS1 < AS1 then .ok "primary_specific"
    else .ok "primary_multi"
  else .error (.runtimeError "Error in processing logic")

/-- Claim C1 (as stated): for `a > t` and `b ≥ a` the classifier would return
`primary_multi`.  Refuted at `a = 0`, `b = 0`, `t = ⊥`: the tie at score `0`
is resolved as `primary_specific`, because Python's `not XS1` treats the float
`0.0` as falsy and hence as an absent second score. -/
theorem get_mapping_state_tie_at_zero_not_multi :
    (⊥ : Score) < ((0 : ℚ) : Score) ∧ ((0 : ℚ) : Score) ≤ ((0 : ℚ) : Score) ∧
      get_mapping_state ((0 : ℚ) : Score) ((0 : ℚ) : Score) ⊥ ≠ .ok "primary_multi" := by
  refine ⟨by decide, by decide, ?_⟩
  decide

/-- Claim C1 (amended): for `a > t` and `b ≥ a` with `b ≠ 0` the classifier
returns `primary_multi`; a tie is resolved as ambiguous except when the
second-best score is exactly `0`, which Python truthiness treats as an absent
second score. -/
theorem get_mapping_state_multi_of_le (a b t : Score) (h1 : t < a) (h2 : a ≤ b)
    (h3 : b ≠ 0) : get_mapping_state a b t = .ok "primary_multi" := by
  unfold get_mapping_state
  rw [if_neg (not_le.mpr h1), if_pos h1, if_neg]
  push_neg
  exact ⟨h3, h2⟩

/-- Witness for the amended claim C1 at `a = 1`, `b = 1`, `t = 0`. -/
theorem get_mapping_state_multi_of_le_witness :
    get_mapping_state ((1 : ℚ) : Score) ((1 : ℚ) : Score) ((0 : ℚ) : Score) =
      .ok "primary_multi" :=
  get_mapping_state_multi_of_le _ _ _ (by decide) (by decide) (by decide)

/-- Claim C2: for `a > t`, if the second-best score is absent (`⊥`, the
model of `float('-inf')`) or strictly below `a`, the classifier returns
`primary_specific`. -/
theorem get_mapping_state_specific (a b t : Score) (h1 : t < a)
    (h2 : b = ⊥ ∨ b < a) : get_mapping_state a b t = .ok "primary_specific" := by
  unfold get_mapping_state
  rw [if_neg (not_le.mpr h1), if_pos h1, if_pos]
  rcases h2 with h2 | h2
  · subst h2
    exact Or.inr (lt_of_le_of_lt bot_le h1)
  · exact Or.inr h2

/-- Witness for claim C2 at `a = 0`, `b = ⊥` (absent), `t = ⊥`. -/
theorem get_mapping_state_specific_witness :
    get_mapping_state ((0 : ℚ) : Score) ⊥ ⊥ = .ok "primary_specific" :=
  get_mapping_state_specific _ _ _ (by decide) (Or.inl rfl)

/-- Claim C3: any best score at or below the threshold is classified
`unassigned`, regardless of the second-best score; equality with the
threshold is also rejected. -/
theorem get_mapping_state_unassigned (a b t : Score) (h : a ≤ t) :
    get_mapping_state a b t = .ok "unassigned" := by
  unfold get_mapping_state
  rw [if_pos h]

/-- Witness for claim C3 at `a = t = 0` (equality with the threshold), with a
high second-best score. -/
theorem get_mapping_state_unassigned_witness :
    get_mapping_state ((0 : ℚ) : Score) ((5 : ℚ) : Score) ((0 : ℚ) : Score) =
      .ok "unassigned" :=
  get_mapping_state_unassigned _ _ _ (by decide)

/-- Characterisation of `isSubAt`: the needle occurs at the head of the hay. -/
theorem isSubAt_iff (n : List Char) : ∀ h : List Char,
    isSubAt n h = true ↔ ∃ q, h = n ++ q := by
  induction n with
  | nil =>
    intro h
    simp [isSubAt]
  | cons a as ih =>
    intro h
    cases h with
    | nil =>
      simp [isSubAt]
    | cons b bs =>
      simp only [isSubAt, Bool.and_eq_true, decide_eq_true_eq, ih bs, List.cons_append,
        List.cons.injEq]
      constructor
      · rintro ⟨hab, q, hq⟩
        exact ⟨q, hab.symm, hq⟩
      · rintro ⟨q, hab, hq⟩
        exact ⟨hab.symm, q, hq⟩

/-- Characterisation of `containsSub`: the needle occurs contiguously inside
the hay. -/
theorem containsSub_iff (n : List Char) : ∀ h : List Char,
    containsSub n h = true ↔ ∃ p q, h = p ++ n ++ q := by
  intro h
  induction h with
  | nil =>
    simp only [containsSub, isSubAt_iff]
    constructor
    · rintro ⟨q, hq⟩
      exact ⟨[], q, by simpa using hq⟩
    · rintro ⟨p, q, hq⟩
      rcases List.append_eq_nil.mp hq.symm with ⟨h1, h2⟩
      rcases List.append_eq_nil.mp h1 with ⟨hp, hn⟩
      subst hn h2
      exact ⟨[], by simp⟩
  | cons b bs ih =>
    simp only [containsSub, Bool.or_eq_true, isSubAt_iff, ih]
    constructor
    · rintro (⟨q, hq⟩ | ⟨p, q, hq⟩)
      · exact ⟨[], q, by simpa using hq⟩
      · exact ⟨b :: p, q, by simp [hq]⟩
    · rintro ⟨p, q, hq⟩
      cases p with
      | nil =>
        exact Or.inl ⟨q, by simpa using hq⟩
      | cons x xs =>
        have hx : b :: bs = x :: (xs ++ n ++ q) := by
          rw [hq]
          simp
        injection hx with h1 h2
        exact Or.inr ⟨xs, q, h2⟩

/-- Claim C4: `get_tag` inspects only the fields from index 11 onward, keeps
the fields containing the tag name as a substring, returns `-inf` (`⊥`) when
none matches, returns the float-parsed text after the last `':'` of the
unique match, and raises `ValueError` (the malformed-record error) when more
than one field matches. -/
theorem get_tag_spec (pf : String → Score) (sam_line : List String) (tag : String) :
    (∀ pre pre' : List String, pre.length = 11 → pre'.length = 11 →
      ∀ rest, get_tag pf (pre ++ rest) tag = get_tag pf (pre' ++ rest) tag) ∧
    (∀ x : String, pyIn tag x = true ↔ ∃ p q, x.data = p ++ tag.data ++ q) ∧
    ((sam_line.drop 11).filter (fun x => pyIn tag x) = [] →
      get_tag pf sam_line tag = .ok ⊥) ∧
    (∀ t, (sam_line.drop 11).filter (fun x => pyIn tag x) = [t] →
      get_tag pf sam_line tag = .ok (pf (lastStr (splitOnChar ':' t)))) ∧
    (∀ t1 t2 ts, (sam_line.drop 11).filter (fun x => pyIn tag x) = t1 :: t2 :: ts →
      ∃ msg, get_tag pf sam_line tag = .error (.valueError msg)) := by
  refine ⟨?_, ?_, ?_, ?_, ?_⟩
  · intro pre pre' hl hl' rest
    unfold get_tag
    rw [show (11 : Nat) = pre.length from hl.symm]
    nth_rewrite 2 [show pre.length = pre'.length from hl.trans hl'.symm]
    rw [List.drop_left, List.drop_left]
  · intro x
    exact containsSub_iff tag.data x.data
  · intro hf
    unfold get_tag
    rw [hf]
  · intro t hf
    unfold get_tag
    rw [hf]
  · intro t1 t2 ts hf
    unfold get_tag
    rw [hf]
    exact ⟨_, rfl⟩

/-- Witness for claim C4: a record with no optional fields yields `-inf`. -/
theorem get_tag_spec_witness :
    get_tag (fun _ => ((0 : ℚ) : Score)) [] "AS" = .ok ⊥ :=
  (get_tag_spec (fun _ => ((0 : ℚ) : Score)) [] "AS").2.2.1 rfl

/-- Output destinations of `main_single_end` (xenomapper.py lines 160-164):
`none` models Python `None` (an unbound destination, falsy in `if dest:`);
`some ls` models a bound text stream whose written content so far is the list
of strings `ls`. -/
structure Outputs where
  primary_specific : Option (List String)
  primary_multi : Option (List String)
  unassigned : Option (List String)
  deriving DecidableEq

/-- Loop state of `main_single_end`: the `Counter` of categories (every key
starts at an implicit zero) and the three output destinations. -/
structure SEState where
  category_counts : String → Nat
  outs : Outputs

/-- Model of `print(s, file=dest)` guarded by `if dest:`: an unbound
destination stays unbound and receives nothing; a bound one receives the
newline-terminated string. -/
def pyWrite (dest : Option (List String)) (s : String) : Option (List String) :=
  match dest with
  | none => none
  | some ls => some (ls ++ [s ++ "\n"])

/-- Embedding of one iteration of the `for line1 in readpairs` loop of
`main_single_end` (xenomapper.py lines 187-204): extract the `AS` and `XS`
tags, classify, increment the counter for the resulting state, then write the
tab-rejoined record to the destination bound to that state (if any); an
unexpected state raises `RuntimeError`.  The tag extractor `tf` is the
`tag_func` parameter of the Python function. -/
def step_record (min_score : Score) (tf : List String → String → Except PyError Score)
    (line1 : List String) (st : SEState) : Except PyError SEState :=
  match tf line1 "AS" with
  | .error e => .error e
  | .ok AS1 =>
    match tf line1 "XS" with
    | .error e => .error e
    | .ok XS1 =>
      match get_mapping_state AS1 XS1 min_score with
      | .error e => .error e
      | .ok state =>
        let counts1 : String → Nat :=
          fun k => if k = state then st.category_counts k + 1 else st.category_counts k
        if state = "primary_specific" then
          .ok ⟨counts1, { st.outs with
            primary_specific := pyWrite st.outs.primary_specific (pyJoin "\t" line1) }⟩
        else if state = "primary_multi" then
          .ok ⟨counts1, { st.outs with
            primary_multi := pyWrite st.outs.primary_multi (pyJoin "\t" line1) }⟩
        else if state = "unassigned" then
          .ok ⟨counts1, { st.outs with
            unassigned := pyWrite st.outs.unassigned (pyJoin "\t" line1) }⟩
        else .error (.runtimeError ("Unexpected state " ++ state ++ " "))

/-- The whole `for` loop of `main_single_end`, one record at a time in input
order; an exception aborts the loop and propagates. -/
def run_records (min_score : Score) (tf : List String → String → Except PyError Score) :
    List (List String) → SEState → Except PyError SEState
  | [], st => .ok st
  | line1 :: rest, st =>
    match step_record min_score tf line1 st with
    | .error e => .error e
    | .ok st1 => run_records min_score tf rest st1

/-- Embedding of `main_single_end(readpairs, ...)` (xenomapper.py lines
160-205): starts from an empty `Counter` and the configured destinations, runs
the loop, and returns the final category counts together with the content
written to each destination. -/
def main_single_end (readpairs : List (List String)) (outs : Outputs)
    (min_score : Score) (tf : List String → String → Except PyError Score) :
    Except PyError ((String → Nat) × Outputs) :=
  match run_records min_score tf readpairs ⟨fun _ => 0, outs⟩ with
  | .error e => .error e
  | .ok st => .ok (st.category_counts, st.outs)

/-- Category computed for one record: the composition of tag extraction for
`AS` and `XS` with the classifier, exactly as the loop body performs it. -/
def recState (tf : List String → String → Except PyError Score) (min_score : Score)
    (line1 : List String) : Except PyError String :=
  match tf line1 "AS" with
  | .error e => .error e
  | .ok AS1 =>
    match tf line1 "XS" with
    | .error e => .error e
    | .ok XS1 => get_mapping_state AS1 XS1 min_score

/-- Records of the stream classified into category `c`, in input order. -/
def filterState (tf : List String → String → Except PyError Score) (min_score : Score)
    (c : String) (rs : List (List String)) : List (List String) :=
  rs.filter (fun l => decide (recState tf min_score l = .ok c))

/-- Output chunks produced for a list of records: tab-rejoined fields,
newline-terminated. -/
def outChunks (rs : List (List String)) : List String :=
  rs.map (fun l => pyJoin "\t" l ++ "\n")

/-- Appends a list of chunks to a destination; an unbound destination absorbs
everything and stays unbound. -/
def pushAll (dest : Option (List String)) (chunks : List String) : Option (List String) :=
  match dest with
  | none => none
  | some ls => some (ls ++ chunks)

/-- Helper: the classifier always succeeds with one of the three categories
(shared by the proofs below; claim C9 restates it). -/
theorem get_mapping_state_cases (a b t : Score) :
    get_mapping_state a b t = .ok "unassigned" ∨
      get_mapping_state a b t = .ok "primary_specific" ∨
      get_mapping_state a b t = .ok "primary_multi" := by
  unfold get_mapping_state
  rcases le_or_lt a t with h | h
  · rw [if_pos h]
    exact Or.inl rfl
  · rw [if_neg (not_le.mpr h), if_pos h]
    by_cases h2 : b = 0 ∨ b < a
    · rw [if_pos h2]
      exact Or.inr (Or.inl rfl)
    · rw [if_neg h2]
      exact Or.inr (Or.inr rfl)

/-- Appending nothing to a destination leaves it unchanged. -/
theorem pushAll_nil (o : Option (List String)) : pushAll o [] = o := by
  cases o <;> simp [pushAll]

/-- Pushing a newline-terminated chunk is one `print` call. -/
theorem pushAll_chunk (o : Option (List String)) (s : String) (cs : List String) :
    pushAll o ((s ++ "\n") :: cs) = pushAll (pyWrite o s) cs := by
  cases o <;> simp [pushAll, pyWrite]

/-- Characterisation of a successful loop iteration: the record's category is
one of the three, exactly that category's count is incremented by one, and
exactly that category's destination (if bound) receives the tab-rejoined,
newline-terminated record. -/
theorem step_record_ok (min_score : Score)
    (tf : List String → String → Except PyError Score) (line1 : List String)
    (st st1 : SEState) (h : step_record min_score tf line1 st = .ok st1) :
    ∃ s, recState tf min_score line1 = .ok s ∧
      (s = "primary_specific" ∨ s = "primary_multi" ∨ s = "unassigned") ∧
      st1.category_counts =
        (fun k => if k = s then st.category_counts k + 1 else st.category_counts k) ∧
      st1.outs.primary_specific = (if s = "primary_specific" then
        pyWrite st.outs.primary_specific (pyJoin "\t" line1) else st.outs.primary_specific) ∧
      st1.outs.primary_multi = (if s = "primary_multi" then
        pyWrite st.outs.primary_multi (pyJoin "\t" line1) else st.outs.primary_multi) ∧
      st1.outs.unassigned = (if s = "unassigned" then
        pyWrite st.outs.unassigned (pyJoin "\t" line1) else st.outs.unassigned) := by
  cases hAS : tf line1 "AS" with
  | error e => simp [step_record, hAS] at h
  | ok AS1 =>
    cases hXS : tf line1 "XS" with
    | error e => simp [step_record, hAS, hXS] at h
    | ok XS1 =>
      cases hgs : get_mapping_state AS1 XS1 min_score with
      | error e => simp [step_record, hAS, hXS, hgs] at h
      | ok state =>
        refine ⟨state, by simp [recState, hAS, hXS, hgs], ?_⟩
        by_cases h1 : state = "primary_specific"
        · subst h1
          simp [step_record, hAS, hXS, hgs] at h
          subst h
          simp
        · by_cases h2 : state = "primary_multi"
          · subst h2
            simp [step_record, hAS, hXS, hgs] at h
            subst h
            simp
          · by_cases h3 : state = "unassigned"
            · subst h3
              simp [step_record, hAS, hXS, hgs] at h
              subst h
              simp
            · simp [step_record, hAS, hXS, hgs, h1, h2, h3] at h

/-- Running the loop over a concatenation is running it over the first part
and continuing over the second, with errors propagating. -/
theorem run_records_append (min_score : Score)
    (tf : List String → String → Except PyError Score) :
    ∀ (l1 l2 : List (List String)) (st : SEState),
      run_records min_score tf (l1 ++ l2) st =
        match run_records min_score tf l1 st with
        | .error e => .error e
        | .ok st1 => run_records min_score tf l2 st1 := by
  intro l1
  induction l1 with
  | nil => intro l2 st; rfl
  | cons l rest ih =>
    intro l2 st
    simp only [List.cons_append, run_records]
    cases step_record min_score tf l st with
    | error e => rfl
    | ok st2 => exact ih l2 st2

/-- Full characterisation of a successful run of the loop: every key of the
counter grows by the number of records classified into that key, every bound
destination receives exactly the chunks of its own category in input order,
unbound destinations stay unbound, and every record of the stream classifies
into one of the three categories. -/
theorem run_records_ok_spec (min_score : Score)
    (tf : List String → String → Except PyError Score) :
    ∀ (rs : List (List String)) (st st1 : SEState),
      run_records min_score tf rs st = .ok st1 →
      (∀ k, st1.category_counts k =
          st.category_counts k + (filterState tf min_score k rs).length) ∧
      st1.outs.primary_specific = pushAll st.outs.primary_specific
        (outChunks (filterState tf min_score "primary_specific" rs)) ∧
      st1.outs.primary_multi = pushAll st.outs.primary_multi
        (outChunks (filterState tf min_score "primary_multi" rs)) ∧
      st1.outs.unassigned = pushAll st.outs.unassigned
        (outChunks (filterState tf min_score "unassigned" rs)) ∧
      (∀ l ∈ rs, ∃ s, recState tf min_score l = .ok s ∧
        (s = "primary_specific" ∨ s = "primary_multi" ∨ s = "unassigned")) := by
  intro rs
  induction rs with
  | nil =>
    intro st st1 h
    simp only [run_records] at h
    cases h
    simp [filterState, outChunks, pushAll_nil]
  | cons l rest ih =>
    intro st st1 h
    simp only [run_records] at h
    cases hstep : step_record min_score tf l st with
    | error e => rw [hstep] at h; cases h
    | ok st2 =>
      rw [hstep] at h
      obtain ⟨s, hrec, hs3, hcounts, hps, hpm, hu⟩ :=
        step_record_ok min_score tf l st st2 hstep
      obtain ⟨ihc, ihps, ihpm, ihu, ihmem⟩ := ih st2 st1 h
      have hfilter : ∀ k, filterState tf min_score k (l :: rest) =
          (if s = k then [l] else []) ++ filterState tf min_score k rest := by
        intro k
        by_cases hk : s = k
        · subst hk
          simp [filterState, List.filter_cons, hrec]
        · simp [filterState, List.filter_cons, hrec, hk]
      refine ⟨?_, ?_, ?_, ?_, ?_⟩
      · intro k
        rw [ihc k, hcounts, hfilter k]
        by_cases hk : s = k
        · subst hk
          simp
          omega
        · simp [hk, Ne.symm hk]
      · rw [ihps, hps, hfilter "primary_specific"]
        by_cases hk : s = "primary_specific"
        · simp [hk, outChunks, pushAll_chunk]
        · simp [hk]
      · rw [ihpm, hpm, hfilter "primary_multi"]
        by_cases hk : s = "primary_multi"
        · simp [hk, outChunks, pushAll_chunk]
        · simp [hk]
      · rw [ihu, hu, hfilter "unassigned"]
        by_cases hk : s = "unassigned"
        · simp [hk, outChunks, pushAll_chunk]
        · simp [hk]
      · intro x hx
        rcases List.mem_cons.mp hx with hx | hx
        · exact ⟨s, by rw [hx]; exact hrec, hs3⟩
        · exact ihmem x hx

/-- The loop never raises as long as both tag extractions succeed on every
record: the classifier is total and its three categories are exactly the
routed ones. -/
theorem run_records_total (min_score : Score)
    (tf : List String → String → Except PyError Score) :
    ∀ (rs : List (List String)) (st : SEState),
      (∀ l ∈ rs, (∃ v, tf l "AS" = .ok v) ∧ (∃ v, tf l "XS" = .ok v)) →
      ∃ st1, run_records min_score tf rs st = .ok st1 := by
  intro rs
  induction rs with
  | nil => intro st _; exact ⟨st, rfl⟩
  | cons l rest ih =>
    intro st hall
    obtain ⟨⟨a, ha⟩, ⟨x, hx⟩⟩ := hall l (by simp)
    have hstep : ∃ st2, step_record min_score tf l st = .ok st2 := by
      rcases get_mapping_state_cases a x min_score with h | h | h <;>
        · simp [step_record, ha, hx, h]
    obtain ⟨st2, hstep⟩ := hstep
    obtain ⟨st1, hrun⟩ := ih st2 (fun y hy => hall y (by simp [hy]))
    exact ⟨st1, by simp only [run_records, hstep]; exact hrun⟩

/-- Every record classifies into exactly one of the three categories, so the
three per-category sublists partition the stream. -/
theorem filterState_length_sum (min_score : Score)
    (tf : List String → String → Except PyError Score) :
    ∀ rs : List (List String),
      (∀ l ∈ rs, ∃ s, recState tf min_score l = .ok s ∧
        (s = "primary_specific" ∨ s = "primary_multi" ∨ s = "unassigned")) →
      (filterState tf min_score "unassigned" rs).length +
        (filterState tf min_score "primary_specific" rs).length +
        (filterState tf min_score "primary_multi" rs).length = rs.length := by
  intro rs
  induction rs with
  | nil => intro _; simp [filterState]
  | cons l rest ih =>
    intro hmem
    obtain ⟨s, hs, h3⟩ := hmem l (by simp)
    have hrest := ih (fun x hx => hmem x (by simp [hx]))
    simp only [filterState, List.filter_cons] at hrest ⊢
    rcases h3 with h | h | h <;> subst h <;> simp [hs] <;> omega

/-- Projection of the category counter out of the returned value of
`main_single_end` (zero if the run raised). -/
def countsOf (r : Except PyError ((String → Nat) × Outputs)) (k : String) : Nat :=
  match r with
  | .ok p => p.1 k
  | .error _ => 0

/-- Claim C5: when `main_single_end` returns, the three category counts sum to
exactly the number of records, no other key of the counter was ever touched,
the counts are monotonically non-decreasing along every prefix of the run, and
each record increments exactly one category's count by exactly one. -/
theorem main_single_end_count_invariants (rs : List (List String)) (outs : Outputs)
    (min_score : Score) (tf : List String → String → Except PyError Score)
    (counts : String → Nat) (outs1 : Outputs)
    (h : main_single_end rs outs min_score tf = .ok (counts, outs1)) :
    counts "unassigned" + counts "primary_specific" + counts "primary_multi" = rs.length ∧
    (∀ k, k ≠ "unassigned" → k ≠ "primary_specific" → k ≠ "primary_multi" →
      counts k = 0) ∧
    (∀ l1 l2, rs = l1 ++ l2 →
      ∃ c1 o1, main_single_end l1 outs min_score tf = .ok (c1, o1) ∧
        ∀ k, c1 k ≤ counts k) ∧
    (∀ l1 rec l2, rs = l1 ++ rec :: l2 →
      ∃ c1 o1 c2 o2 s, main_single_end l1 outs min_score tf = .ok (c1, o1) ∧
        main_single_end (l1 ++ [rec]) outs min_score tf = .ok (c2, o2) ∧
        recState tf min_score rec = .ok s ∧
        ∀ k, c2 k = c1 k + if k = s then 1 else 0) := by
  unfold main_single_end at h
  cases hrun : run_records min_score tf rs ⟨fun _ => 0, outs⟩ with
  | error e => rw [hrun] at h; cases h
  | ok st1 =>
    rw [hrun] at h
    cases h
    obtain ⟨hc, _, _, _, hmem⟩ := run_records_ok_spec min_score tf rs _ _ hrun
    have hzero : ∀ k, st1.category_counts k = (filterState tf min_score k rs).length := by
      intro k
      simpa using hc k
    refine ⟨?_, ?_, ?_, ?_⟩
    · rw [hzero, hzero, hzero]
      exact filterState_length_sum min_score tf rs hmem
    · intro k hk1 hk2 hk3
      rw [hzero k]
      have : filterState tf min_score k rs = [] := by
        refine List.filter_eq_nil_iff.mpr ?_
        intro a ha
        obtain ⟨s, hs, h3⟩ := hmem a ha
        simp only [hs, decide_eq_true_eq]
        rcases h3 with h | h | h <;> subst h <;>
          simp [Ne.symm hk1, Ne.symm hk2, Ne.symm hk3]
      rw [this]
      rfl
    · intro l1 l2 heq
      subst heq
      have happ := run_records_append min_score tf l1 l2 ⟨fun _ => 0, outs⟩
      rw [hrun] at happ
      cases hrun1 : run_records min_score tf l1 ⟨fun _ => 0, outs⟩ with
      | error e => rw [hrun1] at happ; cases happ
      | ok stA =>
        rw [hrun1] at happ
        obtain ⟨hcA, _, _, _, _⟩ := run_records_ok_spec min_score tf l1 _ _ hrun1
        refine ⟨stA.category_counts, stA.outs, by simp [main_single_end, hrun1], ?_⟩
        intro k
        obtain ⟨hcrest, _, _, _, _⟩ := run_records_ok_spec min_score tf l2 _ _ happ.symm
        rw [hcrest k, hcA k]
        exact Nat.le_add_right _ _
    · intro l1 rec l2 heq
      subst heq
      have happ := run_records_append min_score tf l1 (rec :: l2) ⟨fun _ => 0, outs⟩
      rw [hrun] at happ
      cases hrun1 : run_records min_score tf l1 ⟨fun _ => 0, outs⟩ with
      | error e => rw [hrun1] at happ; cases happ
      | ok stA =>
        rw [hrun1] at happ
        simp only [run_records] at happ
        cases hstep : step_record min_score tf rec stA with
        | error e => rw [hstep] at happ; cases happ
        | ok stB =>
          obtain ⟨s, hrec, _, hcounts, _, _, _⟩ :=
            step_record_ok min_score tf rec stA stB hstep
          have hrun2 : run_records min_score tf (l1 ++ [rec]) ⟨fun _ => 0, outs⟩ =
              .ok stB := by
            have h2 := run_records_append min_score tf l1 [rec] ⟨fun _ => 0, outs⟩
            rw [hrun1] at h2
            simpa [run_records, hstep] using h2
          refine ⟨stA.category_counts, stA.outs, stB.category_counts, stB.outs, s,
            by simp [main_single_end, hrun1], by simp [main_single_end, hrun2],
            hrec, ?_⟩
          intro k
          rw [hcounts]
          by_cases hk : k = s <;> simp [hk]

/-- Witness for claim C5: a single record with both tags absent (scores `-inf`)
is counted once, as `unassigned`. -/
theorem main_single_end_count_invariants_witness :
    countsOf (main_single_end [["read1", "0"]] ⟨none, none, none⟩ ⊥
        (fun _ _ => .ok ⊥)) "unassigned" +
      countsOf (main_single_end [["read1", "0"]] ⟨none, none, none⟩ ⊥
        (fun _ _ => .ok ⊥)) "primary_specific" +
      countsOf (main_single_end [["read1", "0"]] ⟨none, none, none⟩ ⊥
        (fun _ _ => .ok ⊥)) "primary_multi" = 1 :=
  (main_single_end_count_invariants [["read1", "0"]] ⟨none, none, none⟩ ⊥
    (fun _ _ => .ok ⊥) _ _ rfl).1

/-- Claim C6: whenever both tag extractions succeed on every record, the run
completes without error; each destination bound to a category receives exactly
the records classified into that category, rejoined with single tabs and
newline-terminated, in input order; an unbound destination stays unbound and
receives nothing anywhere; and every category is counted independently of
whether its destination is bound. -/
theorem main_single_end_routes_records (rs : List (List String)) (outs : Outputs)
    (min_score : Score) (tf : List String → String → Except PyError Score)
    (h : ∀ l ∈ rs, (∃ v, tf l "AS" = .ok v) ∧ (∃ v, tf l "XS" = .ok v)) :
    ∃ counts outs1, main_single_end rs outs min_score tf = .ok (counts, outs1) ∧
      outs1.primary_specific = pushAll outs.primary_specific
        (outChunks (filterState tf min_score "primary_specific" rs)) ∧
      outs1.primary_multi = pushAll outs.primary_multi
        (outChunks (filterState tf min_score "primary_multi" rs)) ∧
      outs1.unassigned = pushAll outs.unassigned
        (outChunks (filterState tf min_score "unassigned" rs)) ∧
      counts "primary_specific" = (filterState tf min_score "primary_specific" rs).length ∧
      counts "primary_multi" = (filterState tf min_score "primary_multi" rs).length ∧
      counts "unassigned" = (filterState tf min_score "unassigned" rs).length := by
  obtain ⟨st1, hrun⟩ := run_records_total min_score tf rs ⟨fun _ => 0, outs⟩ h
  obtain ⟨hc, hps, hpm, hu, _⟩ := run_records_ok_spec min_score tf rs _ _ hrun
  refine ⟨st1.category_counts, st1.outs, by simp [main_single_end, hrun],
    hps, hpm, hu, ?_, ?_, ?_⟩ <;> simpa using hc _

/-- Witness for claim C6: one record whose scores are `AS = 1`, `XS = ⊥`
(so it classifies `primary_specific`) with only the `primary_specific`
destination bound; the run returns successfully. -/
theorem main_single_end_routes_records_witness :
    (main_single_end [["read1", "0", "chr1"]] ⟨some [], none, none⟩ ⊥
      (fun _ tag => if tag = "AS" then .ok ((1 : ℚ) : Score) else .ok ⊥)).toOption.isSome
      = true := by
  obtain ⟨counts, outs1, heq, _⟩ :=
    main_single_end_routes_records [["read1", "0", "chr1"]] ⟨some [], none, none⟩ ⊥
      (fun _ tag => if tag = "AS" then .ok ((1 : ℚ) : Score) else .ok ⊥)
      (by
        intro l hl
        exact ⟨⟨((1 : ℚ) : Score), by simp⟩, ⟨⊥, by simp⟩⟩)
  rw [heq]
  rfl

/-- Helper for `pySplitWs`: accumulates the current word (reversed), dropping
empty words as Python `str.split()` with no argument does. -/
def splitWsAux : List Char → List Char → List String
  | [], acc => if acc.isEmpty then [] else [String.mk acc.reverse]
  | c :: cs, acc =>
    if c.isWhitespace then
      if acc.isEmpty then splitWsAux cs []
      else String.mk acc.reverse :: splitWsAux cs []
    else splitWsAux cs (c :: acc)

/-- Python `s.split()` with no argument: split on runs of whitespace, dropping
empty fields (used by the code as `new_header[-1].split()`). -/
def pySplitWs (s : String) : List String := splitWsAux s.data []

/-- Python list comprehension `[x[0] for x in header]`: the first character of
every line, raising `IndexError` at the first empty line. -/
def pyFirsts : List String → Except PyError (List Char)
  | [] => .ok []
  | s :: rest =>
    match s.data with
    | [] => .error PyError.indexError
    | c :: _ =>
      match pyFirsts rest with
      | .error e => .error e
      | .ok cs => .ok (c :: cs)

/-- Python `list[-1]` on a list of strings: `IndexError` on an empty list. -/
def pyLast : List String → Except PyError String
  | [] => .error PyError.indexError
  | [x] => .ok x
  | _ :: y :: ys => pyLast (y :: ys)

/-- Embedding of `add_pg_tag(sam_header_list, comment)` (xenomapper.py lines
74-85), with `__version__ = "1.0.1"`.  The function copies its argument (the
copy is implicit here since the embedding is pure; the mutation claim is
settled on the heap model below), checks that every line starts with `'@'`
(raising `ValueError` on a mismatch, but `IndexError` already during
`[x[0] for x in new_header]` if a line is empty), reads the last line with
`new_header[-1]` (`IndexError` on an empty header), builds a `PP:` back
reference from the first whitespace-token starting with `ID` when the last
line is a `@PG` record (`IndexError` via `[...][0]` when that token list is
empty), appends the new `@PG` line, and appends a `@CO` line when the comment
is truthy (present and non-empty). -/
def add_pg_tag (sam_header_list : List String) (comment : Option String) :
    Except PyError (List String) :=
  let new_header := sam_header_list
  match pyFirsts new_header with
  | .error e => .error e
  | .ok firsts =>
    if firsts = List.replicate new_header.length '@' then
      match pyLast new_header with
      | .error e => .error e
      | .ok lastLine =>
        match (if lastLine.data.take 3 = "@PG".data then
                 match (pySplitWs lastLine).filter (fun x => x.data.take 2 = "ID".data) with
                 | [] => Except.error PyError.indexError
                 | t :: _ => Except.ok ("PP" ++ String.mk (t.data.drop 2) ++ "\t")
               else Except.ok "") with
        | .error e => .error e
        | .ok PP =>
          let nh := new_header ++
            ["@PG\tID:Xenomapper\tPN:Xenomapper\t" ++ PP ++ "VN:1.0.1"]
          if comment.getD "" ≠ "" then .ok (nh ++ ["@CO\t" ++ comment.getD ""])
          else .ok nh
    else .error (.valueError ("Incorrect SAM header format :\n" ++
      pyJoin "\n" new_header))

/-- The `PP:` back-reference text the appended `@PG` line carries: empty
unless the last original line is itself a `@PG` record, in which case it is
built from that record's first `ID`-token. -/
def ppRef (lastLine : String) : String :=
  if lastLine.data.take 3 = "@PG".data then
    match (pySplitWs lastLine).filter (fun x => x.data.take 2 = "ID".data) with
    | [] => ""
    | t :: _ => "PP" ++ String.mk (t.data.drop 2) ++ "\t"
  else ""

/-- Decides whether a result of `add_pg_tag` is the malformed-header error
(the `ValueError` raised by the header-marker check). -/
def isMalformedHeader (r : Except PyError (List String)) : Bool :=
  match r with
  | .error (.valueError _) => true
  | _ => false

/-- The comprehension `[x[0] for x in header]` raises only `IndexError`. -/
theorem pyFirsts_error : ∀ (hdr : List String) (e : PyError),
    pyFirsts hdr = .error e → e = .indexError
  | [], e, h => by simp [pyFirsts] at h
  | s :: rest, e, h => by
    cases hd : s.data with
    | nil =>
      simp [pyFirsts, hd] at h
      exact h.symm
    | cons c cs =>
      cases hrest : pyFirsts rest with
      | error e2 =>
        simp [pyFirsts, hd, hrest] at h
        exact h ▸ pyFirsts_error rest e2 hrest
      | ok cs2 => simp [pyFirsts, hd, hrest] at h

/-- On a header whose lines are all non-empty, the comprehension returns the
list of first characters. -/
theorem pyFirsts_ok : ∀ hdr : List String, (∀ l ∈ hdr, l.data ≠ []) →
    pyFirsts hdr = .ok (hdr.map (fun l => l.data.headD ' '))
  | [], _ => rfl
  | s :: rest, h => by
    cases hd : s.data with
    | nil => exact absurd hd (h s (by simp))
    | cons c cs =>
      simp [pyFirsts, hd, pyFirsts_ok rest (fun l hl => h l (by simp [hl]))]

/-- A successful comprehension means every line was non-empty. -/
theorem pyFirsts_nonempty : ∀ (hdr : List String) (cs : List Char),
    pyFirsts hdr = .ok cs → ∀ l ∈ hdr, l.data ≠ []
  | [], _, _, l, hl => by simp at hl
  | s :: rest, cs, h, l, hl => by
    cases hd : s.data with
    | nil => simp [pyFirsts, hd] at h
    | cons c cs' =>
      rcases List.mem_cons.mp hl with rfl | hl
      · simp [hd]
      · cases hrest : pyFirsts rest with
        | error e2 => simp [pyFirsts, hd, hrest] at h
        | ok cs2 => exact pyFirsts_nonempty rest cs2 hrest l hl

/-- `list[-1]` raises only `IndexError` (and only on an empty list). -/
theorem pyLast_error : ∀ (hdr : List String) (e : PyError),
    pyLast hdr = .error e → e = .indexError
  | [], e, h => by
    simp [pyLast] at h
    exact h.symm
  | [x], e, h => by simp [pyLast] at h
  | x :: y :: ys, e, h => pyLast_error (y :: ys) e h

/-- `list[-1]` on a non-empty list returns its last element. -/
theorem pyLast_ok : ∀ hdr : List String, hdr ≠ [] → pyLast hdr = .ok (lastStr hdr)
  | [], h => absurd rfl h
  | [_], _ => rfl
  | _ :: y :: ys, _ => pyLast_ok (y :: ys) (by simp)

/-- A non-empty string's optional head is its default head. -/
theorem headD_head? (l : String) (h : l.data ≠ []) :
    l.data.head? = some (l.data.headD ' ') := by
  cases hd : l.data with
  | nil => exact absurd hd h
  | cons c cs => simp

/-- The malformed-header `ValueError` fires exactly when the comprehension
succeeded but the first characters are not uniformly `'@'`. -/
theorem isMalformedHeader_iff_firsts (hdr : List String) (comment : Option String) :
    isMalformedHeader (add_pg_tag hdr comment) = true ↔
      ∃ firsts, pyFirsts hdr = .ok firsts ∧
        firsts ≠ List.replicate hdr.length '@' := by
  cases hpf : pyFirsts hdr with
  | error e =>
    have he := pyFirsts_error hdr e hpf
    subst he
    simp [add_pg_tag, hpf, isMalformedHeader]
  | ok firsts =>
    by_cases hrep : firsts = List.replicate hdr.length '@'
    · cases hlast : pyLast hdr with
      | error e =>
        have he := pyLast_error hdr e hlast
        subst he
        simp [add_pg_tag, hpf, hrep, hlast, isMalformedHeader]
      | ok lastLine =>
        by_cases hpg : lastLine.data.take 3 = "@PG".data
        · cases hfil : (pySplitWs lastLine).filter (fun x => x.data.take 2 = "ID".data) with
          | nil =>
            simp [add_pg_tag, hpf, hrep, hlast, hpg, hfil, isMalformedHeader]
          | cons t ts =>
            simp only [add_pg_tag, hpf, hrep, hlast, hpg, hfil, isMalformedHeader,
              if_pos rfl, if_true, reduceIte]
            constructor
            · intro hx
              by_cases hc : comment.getD "" ≠ "" <;> simp [hc] at hx
            · rintro ⟨f, hf, hfne⟩
              exact absurd (by injection hf with h1; exact h1.symm) hfne
        · simp only [add_pg_tag, hpf, hrep, hlast, hpg, isMalformedHeader,
            if_pos rfl, if_true, reduceIte, if_neg hpg]
          constructor
          · intro hx
            by_cases hc : comment.getD "" ≠ "" <;> simp [hc] at hx
          · rintro ⟨f, hf, hfne⟩
            exact absurd (by injection hf with h1; exact h1.symm) hfne
    · simp [add_pg_tag, hpf, hrep, isMalformedHeader]

/-- Claim C8 (amended): `add_pg_tag` raises the malformed-header `ValueError`
if and only if every header line is non-empty and some line does not begin
with `'@'`.  A header containing an empty line instead raises `IndexError` at
`x[0]`, before the marker comparison; a uniformly `'@'`-marked header never
triggers the malformed-header error.  The check precedes every append, so no
output is produced on failure. -/
theorem add_pg_tag_malformed_iff (hdr : List String) (comment : Option String) :
    isMalformedHeader (add_pg_tag hdr comment) = true ↔
      ((∀ l ∈ hdr, l.data ≠ []) ∧ ∃ l ∈ hdr, l.data.head? ≠ some '@') := by
  rw [isMalformedHeader_iff_firsts hdr comment]
  constructor
  · rintro ⟨firsts, hpf, hne⟩
    have hall := pyFirsts_nonempty hdr firsts hpf
    have hmap := pyFirsts_ok hdr hall
    rw [hpf] at hmap
    injection hmap with hmap
    refine ⟨hall, ?_⟩
    by_contra hbad
    push_neg at hbad
    refine hne (hmap.trans (List.eq_replicate_iff.mpr ⟨by simp, ?_⟩))
    intro b hb
    obtain ⟨l, hl, rfl⟩ := List.mem_map.mp hb
    have := hbad l hl
    rw [headD_head? l (hall l hl)] at this
    exact Option.some_injective _ this
  · rintro ⟨hall, l0, hl0, hbad⟩
    refine ⟨hdr.map (fun l => l.data.headD ' '), pyFirsts_ok hdr hall, ?_⟩
    intro heq
    obtain ⟨-, hrep⟩ := List.eq_replicate_iff.mp heq
    refine hbad ?_
    rw [headD_head? l0 (hall l0 hl0)]
    rw [hrep (l0.data.headD ' ') (List.mem_map.mpr ⟨l0, hl0, rfl⟩)]

/-- Witness for the amended claim C8: a header line `"HD"` that is non-empty
but does not begin with `'@'` triggers the malformed-header error. -/
theorem add_pg_tag_malformed_iff_witness :
    isMalformedHeader (add_pg_tag ["HD"] none) = true :=
  (add_pg_tag_malformed_iff ["HD"] none).mpr
    ⟨by decide, "HD", by decide, by decide⟩

/-- Claim C8 (as stated): a header containing a line not beginning with `'@'`
would raise the malformed-header error.  Refuted at the header `[""]`: the
empty line does not begin with `'@'`, yet the comprehension `[x[0] for x in
new_header]` raises `IndexError` before the marker check, so no
malformed-header `ValueError` is raised. -/
theorem add_pg_tag_empty_line_not_malformed :
    ("" : String).data.head? ≠ some '@' ∧
      add_pg_tag [""] none = .error PyError.indexError ∧
      isMalformedHeader (add_pg_tag [""] none) = false := by
  refine ⟨by decide, by decide, by decide⟩

/-- Claim C7 (amended): on a well-formed header block (non-empty, every line
beginning with `'@'`, and — when the last line is a `@PG` record — that line
carrying an `ID` token, as the SAM format requires), `add_pg_tag` returns the
original lines unchanged and in order as a prefix, followed by exactly one
appended `@PG` line identifying the tool (`ID:Xenomapper`, `PN:Xenomapper`)
and its version (`VN:1.0.1`), followed by exactly one `@CO` comment line if
and only if a NON-EMPTY comment was supplied (Python `if comment:` drops an
empty-string comment); when the last original line is itself a `@PG` record
the appended line carries the `PP` back-reference built from that record's
`ID` field. -/
theorem add_pg_tag_appends (hdr : List String) (comment : Option String)
    (hne : hdr ≠ [])
    (hmark : ∀ l ∈ hdr, l.data.head? = some '@')
    (hid : (lastStr hdr).data.take 3 = "@PG".data →
      (pySplitWs (lastStr hdr)).filter (fun x => x.data.take 2 = "ID".data) ≠ []) :
    add_pg_tag hdr comment = .ok (hdr ++
      ["@PG\tID:Xenomapper\tPN:Xenomapper\t" ++ ppRef (lastStr hdr) ++ "VN:1.0.1"] ++
      (if comment.getD "" ≠ "" then ["@CO\t" ++ comment.getD ""] else [])) := by
  have hall : ∀ l ∈ hdr, l.data ≠ [] := by
    intro l hl hd
    have hh := hmark l hl
    rw [hd] at hh
    simp at hh
  have hrep : hdr.map (fun l => l.data.headD ' ') = List.replicate hdr.length '@' := by
    refine List.eq_replicate_iff.mpr ⟨by simp, ?_⟩
    intro b hb
    obtain ⟨l, hl, rfl⟩ := List.mem_map.mp hb
    have h := hmark l hl
    rw [headD_head? l (hall l hl)] at h
    exact Option.some_injective _ h
  simp only [add_pg_tag, pyFirsts_ok hdr hall, pyLast_ok hdr hne, hrep, reduceIte]
  by_cases hpg : (lastStr hdr).data.take 3 = "@PG".data
  · cases hfil : (pySplitWs (lastStr hdr)).filter (fun x => x.data.take 2 = "ID".data) with
    | nil => exact absurd hfil (hid hpg)
    | cons t ts =>
      by_cases hc : comment.getD "" ≠ "" <;>
        simp [hpg, hfil, hc, ppRef, List.append_assoc]
  · by_cases hc : comment.getD "" ≠ "" <;>
      simp [hpg, hc, ppRef, List.append_assoc]

/-- Witness for the amended claim C7: a two-line header ending in a `@PG`
record, with a non-empty comment; the appended `@PG` line carries the `PP`
back-reference to `ID:bwa` and the `@CO` line carries the comment. -/
theorem add_pg_tag_appends_witness :
    add_pg_tag ["@HD\tVN:1.5", "@PG\tID:bwa"] (some "species specific reads") =
      .ok ["@HD\tVN:1.5", "@PG\tID:bwa",
        "@PG\tID:Xenomapper\tPN:Xenomapper\tPP:bwa\tVN:1.0.1",
        "@CO\tspecies specific reads"] :=
  (add_pg_tag_appends ["@HD\tVN:1.5", "@PG\tID:bwa"] (some "species specific reads")
    (by decide) (by decide) (by decide)).trans (by decide)

/-- Claim C7 (as stated): the appended `@CO` line would appear if and only if
a comment was supplied.  Refuted at the supplied comment `some ""`: Python's
`if comment:` is falsy on the empty string, so no `@CO` line is appended —
the result has only the original line and the `@PG` line. -/
theorem add_pg_tag_empty_comment_no_co :
    add_pg_tag ["@HD\tVN:1.5"] (some "") =
      .ok ["@HD\tVN:1.5", "@PG\tID:Xenomapper\tPN:Xenomapper\tVN:1.0.1"] ∧
    (match add_pg_tag ["@HD\tVN:1.5"] (some "") with
     | .ok ls => ls.countP (fun l => decide (l.data.take 3 = "@CO".data))
     | .error _ => 0) = 0 :=
  ⟨by decide, by decide⟩

/-- A tiny heap of Python list objects, used to settle the frame/no-mutation
claim about `add_pg_tag`: Python lists are mutable heap cells reached through
references (indices into the heap). -/
structure PyHeap where
  cells : List (List String)

/-- Dereferences a list object (the default for a dangling reference is never
used by the theorems below). -/
def readCell (h : PyHeap) (r : Nat) : List String := (h.cells[r]?).getD []

/-- Overwrites the cell a reference points to. -/
def writeCell (h : PyHeap) (r : Nat) (v : List String) : PyHeap := ⟨h.cells.set r v⟩

/-- Python `obj.append(x)`: in-place mutation of the referenced list. -/
def appendCell (h : PyHeap) (r : Nat) (x : String) : PyHeap :=
  writeCell h r (readCell h r ++ [x])

/-- Heap-level embedding of `add_pg_tag(sam_header_list, comment)`
(xenomapper.py lines 74-85): `new_header = copy(sam_header_list)` allocates a
fresh cell holding a copy of the argument's value, all `.append` calls mutate
only that fresh cell, and the reference to it is returned.  The final heap is
returned in both the normal and the raising case (a Python exception does not
roll heap effects back). -/
def add_pg_tag_heap (h : PyHeap) (r : Nat) (comment : Option String) :
    PyHeap × Except PyError Nat :=
  let nr : Nat := h.cells.length
  let h1 : PyHeap := ⟨h.cells ++ [readCell h r]⟩
  match pyFirsts (readCell h1 nr) with
  | .error e => (h1, .error e)
  | .ok firsts =>
    if firsts = List.replicate (readCell h1 nr).length '@' then
      match pyLast (readCell h1 nr) with
      | .error e => (h1, .error e)
      | .ok lastLine =>
        match (if lastLine.data.take 3 = "@PG".data then
                 match (pySplitWs lastLine).filter (fun x => x.data.take 2 = "ID".data) with
                 | [] => Except.error PyError.indexError
                 | t :: _ => Except.ok ("PP" ++ String.mk (t.data.drop 2) ++ "\t")
               else Except.ok "") with
        | .error e => (h1, .error e)
        | .ok PP =>
          let h2 := appendCell h1 nr
            ("@PG\tID:Xenomapper\tPN:Xenomapper\t" ++ PP ++ "VN:1.0.1")
          let h3 := if comment.getD "" ≠ "" then
            appendCell h2 nr ("@CO\t" ++ comment.getD "") else h2
          (h3, .ok nr)
    else (h1, .error (.valueError ("Incorrect SAM header format :\n" ++
      pyJoin "\n" (readCell h1 nr))))

/-- Allocating a fresh cell does not disturb existing cells. -/
theorem readCell_alloc (cells : List (List String)) (v : List String) (r : Nat)
    (hr : r < cells.length) :
    readCell ⟨cells ++ [v]⟩ r = readCell ⟨cells⟩ r := by
  simp [readCell, List.getElem?_append_left hr]

/-- Appending to one cell does not disturb a different cell. -/
theorem readCell_appendCell_ne (hh : PyHeap) (n r : Nat) (x : String) (hne : r ≠ n) :
    readCell (appendCell hh n x) r = readCell hh r := by
  simp only [appendCell, writeCell, readCell]
  rw [List.getElem?_set_ne (Ne.symm hne)]

/-- Claim C10: `add_pg_tag` does not mutate its argument.  On the heap model,
for every valid reference `r`, the cell `r` points to holds exactly the same
lines in the same order after the call as before it (whether the call returns
or raises): the function copies the list into a fresh cell and appends only
to the copy. -/
theorem add_pg_tag_heap_preserves_input (h : PyHeap) (r : Nat)
    (comment : Option String) (hr : r < h.cells.length) :
    readCell (add_pg_tag_heap h r comment).1 r = readCell h r := by
  have hne : r ≠ h.cells.length := Nat.ne_of_lt hr
  have h1r : readCell ⟨h.cells ++ [readCell h r]⟩ r = readCell h r :=
    readCell_alloc h.cells (readCell h r) r hr
  simp only [add_pg_tag_heap]
  repeat' split
  all_goals
    first
      | exact h1r
      | (rw [readCell_appendCell_ne _ _ _ _ hne, readCell_appendCell_ne _ _ _ _ hne]
         exact h1r)
      | (rw [readCell_appendCell_ne _ _ _ _ hne]
         exact h1r)

/-- Witness for claim C10: a heap with one header cell; after the call the
argument cell still holds its original single line. -/
theorem add_pg_tag_heap_preserves_input_witness :
    readCell (add_pg_tag_heap ⟨[["@HD\tVN:1.5"]]⟩ 0 none).1 0 = ["@HD\tVN:1.5"] :=
  add_pg_tag_heap_preserves_input ⟨[["@HD\tVN:1.5"]]⟩ 0 none (by decide)

/-- Python float values as consumed by the classifier: an ordered value
(rationals extended with `-inf`, i.e. `Score`) or the unordered `nan`.
`float('nan')` is a representable input of `get_mapping_state` (e.g. via
`float()` in `get_tag`), so the totality claim must be examined over this
full domain. -/
inductive PyFloat where
  | val (x : Score)
  | nan
  deriving DecidableEq

/-- Python `a <= b` on floats: false whenever either operand is `nan`. -/
def pyLe : PyFloat → PyFloat → Bool
  | .val a, .val b => decide (a ≤ b)
  | _, _ => false

/-- Python `a > b` on floats: false whenever either operand is `nan`. -/
def pyGt : PyFloat → PyFloat → Bool
  | .val a, .val b => decide (b < a)
  | _, _ => false

/-- Python `not x` on floats: true only for `0.0` (`-inf` and `nan` are
truthy). -/
def pyNot : PyFloat → Bool
  | .val x => decide (x = 0)
  | .nan => false

/-- Embedding of `get_mapping_state(AS1, XS1, min_score)` (xenomapper.py
lines 150-157) over the full Python float domain including `nan`: the same
branch structure as `get_mapping_state`, with every comparison given the
IEEE behaviour that `nan` falsifies it.  When both `AS1 <= min_score` and
`AS1 > min_score` are false (`AS1` or `min_score` is `nan`) the trailing
`else` IS reached; the model labels it `RuntimeError` as the source intends,
although evaluating `'...'.format((AS1,XS1,AS2,XS2))` there would in fact
raise `NameError` first, `AS2` and `XS2` being undefined names. -/
def get_mapping_state_float (AS1 XS1 min_score : PyFloat) : Except PyError String :=
  if pyLe AS1 min_score then .ok "unassigned"
  else if pyGt AS1 min_score then
    if pyNot XS1 || pyGt AS1 XS1 then .ok "primary_specific"
    else .ok "primary_multi"
  else .error (.runtimeError "Error in processing logic")

/-- On `nan`-free inputs the two embeddings of `get_mapping_state` agree, so
the `WithBot ℚ` model used throughout is the restriction of the full float
model to ordered values. -/
theorem get_mapping_state_float_val (a b t : Score) :
    get_mapping_state_float (.val a) (.val b) (.val t) = get_mapping_state a b t := by
  rcases le_or_lt a t with h | h
  · simp [get_mapping_state_float, get_mapping_state, pyLe, h]
  · have h' : ¬ a ≤ t := not_le.mpr h
    by_cases hb : b = 0
    · simp [get_mapping_state_float, get_mapping_state, pyLe, pyGt, pyNot, h, h', hb]
    · by_cases hba : b < a
      · simp [get_mapping_state_float, get_mapping_state, pyLe, pyGt, pyNot, h, h',
          hb, hba]
      · simp [get_mapping_state_float, get_mapping_state, pyLe, pyGt, pyNot, h, h',
          hb, hba]

/-- Claim C9 (as stated): the classifier would return one of the defined
categories for every pair of floating-point scores, never reaching the
fall-through error branch.  Refuted at `AS1 = nan` (second score `0`,
threshold `0`): both `AS1 <= min_score` and `AS1 > min_score` are false for
`nan`, so no category is returned and the fall-through branch at line 157 is
reached. -/
theorem get_mapping_state_float_nan_fallthrough :
    (get_mapping_state_float .nan (.val ((0 : ℚ) : Score))
        (.val ((0 : ℚ) : Score))).toOption = none ∧
      get_mapping_state_float .nan (.val ((0 : ℚ) : Score)) (.val ((0 : ℚ) : Score)) =
        .error (.runtimeError "Error in processing logic") :=
  ⟨by decide, by decide⟩

/-- Claim C9 (amended): `get_mapping_state` is deterministic and, provided
neither the best score nor the threshold is `nan`, returns one of the three
defined categories (a `nan` SECOND-BEST score is harmless: it falsifies both
`not XS1` and `AS1 > XS1`, yielding `primary_multi`); the fall-through error
branch is reached exactly by a `nan` best score or threshold, not by any
ordered input. -/
theorem get_mapping_state_float_total_of_not_nan (a b t : PyFloat)
    (ha : a ≠ .nan) (ht : t ≠ .nan) :
    get_mapping_state_float a b t = .ok "unassigned" ∨
      get_mapping_state_float a b t = .ok "primary_specific" ∨
      get_mapping_state_float a b t = .ok "primary_multi" := by
  obtain ⟨a1, rfl⟩ : ∃ x, a = .val x := by
    cases a with
    | val x => exact ⟨x, rfl⟩
    | nan => exact absurd rfl ha
  obtain ⟨t1, rfl⟩ : ∃ x, t = .val x := by
    cases t with
    | val x => exact ⟨x, rfl⟩
    | nan => exact absurd rfl ht
  cases b with
  | val b1 =>
    rw [get_mapping_state_float_val]
    exact get_mapping_state_cases a1 b1 t1
  | nan =>
    rcases le_or_lt a1 t1 with h | h
    · exact Or.inl (by simp [get_mapping_state_float, pyLe, h])
    · refine Or.inr (Or.inr ?_)
      have h' : ¬ a1 ≤ t1 := not_le.mpr h
      simp [get_mapping_state_float, pyLe, pyGt, pyNot, h, h']

/-- Witness for the amended claim C9: best score `1` and threshold `0` are
not `nan`, while the second-best score IS `nan`; the classifier still lands
in one of the three categories. -/
theorem get_mapping_state_float_total_of_not_nan_witness :
    get_mapping_state_float (.val ((1 : ℚ) : Score)) PyFloat.nan
        (.val ((0 : ℚ) : Score)) = .ok "unassigned" ∨
      get_mapping_state_float (.val ((1 : ℚ) : Score)) PyFloat.nan
        (.val ((0 : ℚ) : Score)) = .ok "primary_specific" ∨
      get_mapping_state_float (.val ((1 : ℚ) : Score)) PyFloat.nan
        (.val ((0 : ℚ) : Score)) = .ok "primary_multi" :=
  get_mapping_state_float_total_of_not_nan _ _ _ (by decide) (by decide)
